import Mathlib

/-!
Verification of the TaskStore core of the todoApp repository (src/main.go).

The Go code is embedded shallowly:
* `Task` mirrors the Go struct `Task` (src/main.go:18-23); the Go `int` id is
  modelled as `Int`, the title as a list of characters, and `time.Time` as an
  abstract `Nat` clock value supplied by the caller of `Create`.
* `TaskStore` keeps the in-memory fields `tasks` and `nextID`
  (src/main.go:25-30); the mutex and the data directory are concurrency/IO
  plumbing with no effect on the sequential state transitions modelled here.
* File contents are modelled abstractly by `FileData`: the data file is either
  absent, present but malformed (JSON decode fails), or present and parseable
  as a list of task records.  `save` (src/main.go:84-110) writes the encoding
  of the current task list; its possible IO failure is modelled by a `saveOk`
  oracle passed to each mutating operation.
* Errors are collapsed to their kinds (`StoreError`), matching the spec's
  error taxonomy: validation ("title is required"), not-found
  ("task not found"), persistence (any load/save IO or decode failure).
* Mutating operations return the resulting state alongside the result,
  because the Go methods mutate the receiver in place even when they return
  an error after the mutation has happened.
-/

namespace TodoApp

/-- Mirrors the Go struct `Task` (src/main.go:18-23). -/
structure Task where
  id : Int
  title : List Char
  done : Bool
  createdAt : Nat
deriving DecidableEq

/-- The in-memory state of the Go struct `TaskStore` (src/main.go:25-30):
the ordered task sequence and the next-id counter. -/
structure TaskStore where
  tasks : List Task
  nextID : Int
deriving DecidableEq

/-- Error kinds surfaced by the store, per the spec's error taxonomy. -/
inductive StoreError where
  | validation
  | notFound
  | persistence
deriving DecidableEq

/-- Go's `unicode.IsSpace`, used by `strings.TrimSpace`: the Unicode
White_Space code points. -/
def goIsSpace (c : Char) : Bool :=
  let n := c.toNat
  (9 ≤ n && n ≤ 13) || n = 32 || n = 0x85 || n = 0xA0 || n = 0x1680 ||
    (0x2000 ≤ n && n ≤ 0x200A) || n = 0x2028 || n = 0x2029 || n = 0x202F ||
    n = 0x205F || n = 0x3000

/-- Go's `strings.TrimSpace`: drop leading and trailing white space
(src/main.go:122). -/
def trimSpace (s : List Char) : List Char :=
  ((s.dropWhile goIsSpace).reverse.dropWhile goIsSpace).reverse

/-- Abstract contents of the data file `tasks.json`: absent, present but not
decodable as a task list, or decodable as the given task list. -/
inductive FileData where
  | absent
  | malformed
  | contents (tasks : List Task)
deriving DecidableEq

/-- The store state freshly initialised by `NewTaskStore` before `load` runs
(src/main.go:33-37): empty task list, `nextID = 1`. -/
def initStore : TaskStore :=
  { tasks := [], nextID := 1 }

/-- Embeds `(*TaskStore).load` (src/main.go:50-82): absent file keeps the fresh
state; a malformed file is a persistence error; a parseable file becomes the
task list, with `nextID` recomputed as one greater than the running maximum
id (accumulator started at 0), clamped below by 1. -/
def load (fd : FileData) : Except StoreError TaskStore :=
  match fd with
  | .absent => .ok initStore
  | .malformed => .error .persistence
  | .contents loaded =>
    let maxID := loaded.foldl (fun m t => max m t.id) 0
    let n := maxID + 1
    .ok { tasks := loaded, nextID := if n < 1 then 1 else n }

/-- The file contents written by a successful `(*TaskStore).save`
(src/main.go:84-110): the encoding of the current task list, atomically
renamed over the data file. -/
def saveData (s : TaskStore) : FileData :=
  .contents s.tasks

/-- Embeds `(*TaskStore).List` (src/main.go:112-119): a copy of the task sequence in
insertion order. -/
def ListTasks (s : TaskStore) : List Task :=
  s.tasks

/-- Embeds `(*TaskStore).Create` (src/main.go:121-144): trim the title, reject an
empty result, otherwise append a task carrying the current `nextID`,
increment `nextID`, then save.  `now` is the value of `time.Now().UTC()` and
`saveOk` tells whether `save` succeeds.  The resulting in-memory state is
returned in all cases, because the Go method mutates the receiver before
saving and does not roll back. -/
def Create (s : TaskStore) (title : List Char) (now : Nat) (saveOk : Bool) :
    Except StoreError Task × TaskStore :=
  let title := trimSpace title
  if title = [] then
    (.error .validation, s)
  else
    let task : Task := { id := s.nextID, title := title, done := false, createdAt := now }
    let s' : TaskStore := { tasks := s.tasks ++ [task], nextID := s.nextID + 1 }
    if saveOk then (.ok task, s') else (.error .persistence, s')

/-- The loop body of `Toggle` (src/main.go:150-158): find the first task with
the given id, flip its `done` flag in place, and return the updated task
together with the updated list; `none` when no task matches. -/
def toggleTasks : List Task → Int → Option (Task × List Task)
  | [], _ => none
  | t :: ts, id =>
    if t.id = id then
      let t' : Task := { t with done := !t.done }
      some (t', t' :: ts)
    else
      match toggleTasks ts id with
      | none => none
      | some (u, ts') => some (u, t :: ts')

/-- Embeds `(*TaskStore).Toggle` (src/main.go:146-161): flip `done` on the first
task with the given id, then save; not-found error when absent.  The flip is
kept in memory even when the save fails. -/
def Toggle (s : TaskStore) (id : Int) (saveOk : Bool) :
    Except StoreError Task × TaskStore :=
  match toggleTasks s.tasks id with
  | none => (.error .notFound, s)
  | some (t', ts') =>
    let s' : TaskStore := { tasks := ts', nextID := s.nextID }
    if saveOk then (.ok t', s') else (.error .persistence, s')

/-- The loop body of `Delete` (src/main.go:167-172): remove the first task
with the given id, keeping the rest in order; `none` when no task matches. -/
def deleteTasks : List Task → Int → Option (List Task)
  | [], _ => none
  | t :: ts, id =>
    if t.id = id then some ts
    else (deleteTasks ts id).map (t :: ·)

/-- Embeds `(*TaskStore).Delete` (src/main.go:163-175): remove the first task with
the given id, then save; not-found error when absent.  The removal is kept in
memory even when the save fails. -/
def Delete (s : TaskStore) (id : Int) (saveOk : Bool) :
    Except StoreError Unit × TaskStore :=
  match deleteTasks s.tasks id with
  | none => (.error .notFound, s)
  | some ts' =>
    let s' : TaskStore := { tasks := ts', nextID := s.nextID }
    if saveOk then (.ok (), s') else (.error .persistence, s')

/-- One client operation against the store, with its environment inputs (the
clock value for `Create`, and whether the save succeeds). -/
inductive Op where
  | create (title : List Char) (now : Nat) (saveOk : Bool)
  | toggle (id : Int) (saveOk : Bool)
  | delete (id : Int) (saveOk : Bool)

/-- The state after one operation. -/
def applyOp (s : TaskStore) : Op → TaskStore
  | .create title now saveOk => (Create s title now saveOk).2
  | .toggle id saveOk => (Toggle s id saveOk).2
  | .delete id saveOk => (Delete s id saveOk).2

/-- The state after a sequence of operations. -/
def runOps (s : TaskStore) : List Op → TaskStore
  | [] => s
  | op :: ops => runOps (applyOp s op) ops

/-- The ids returned by one operation when it is a successful `Create`. -/
def emittedIds (s : TaskStore) : Op → List Int
  | .create title now saveOk =>
    match (Create s title now saveOk).1 with
    | .ok t => [t.id]
    | .error _ => []
  | .toggle _ _ => []
  | .delete _ _ => []

/-- The ids returned by the successful `Create` calls of a sequence of
operations, in call order. -/
def assignedIds (s : TaskStore) : List Op → List Int
  | [] => []
  | op :: ops => emittedIds s op ++ assignedIds (applyOp s op) ops

/-! ### Basic unfolding lemmas for the store operations -/

/-- The task built by a successful `Create` (src/main.go:130-135). -/
def newTask (s : TaskStore) (title : List Char) (now : Nat) : Task :=
  { id := s.nextID, title := trimSpace title, done := false, createdAt := now }

theorem Create_of_trim_empty {s : TaskStore} {title : List Char} {now : Nat}
    {saveOk : Bool} (h : trimSpace title = []) :
    Create s title now saveOk = (.error .validation, s) := by
  simp [Create, h]

theorem Create_of_trim_ne {s : TaskStore} {title : List Char} {now : Nat}
    {saveOk : Bool} (h : trimSpace title ≠ []) :
    Create s title now saveOk =
      ((if saveOk then .ok (newTask s title now) else .error .persistence),
       { tasks := s.tasks ++ [newTask s title now], nextID := s.nextID + 1 }) := by
  simp only [Create, h, if_neg, ite_false, newTask]
  split <;> rfl

/-- The in-memory state after a non-rejected `Create`, independent of whether
the save succeeds: append and increment happen before `save` is attempted. -/
theorem Create_state {s : TaskStore} {title : List Char} {now : Nat}
    {saveOk : Bool} (h : trimSpace title ≠ []) :
    (Create s title now saveOk).2 =
      { tasks := s.tasks ++ [newTask s title now], nextID := s.nextID + 1 } := by
  rw [Create_of_trim_ne h]

/-- The in-memory state after `Toggle`, independent of whether the save
succeeds: the flip happens before `save` is attempted. -/
theorem Toggle_state (s : TaskStore) (id : Int) (saveOk : Bool) :
    (Toggle s id saveOk).2 =
      match toggleTasks s.tasks id with
      | none => s
      | some (_, ts') => { tasks := ts', nextID := s.nextID } := by
  rw [Toggle]
  cases toggleTasks s.tasks id with
  | none => rfl
  | some p =>
    cases p with
    | mk u ts' => cases saveOk <;> rfl

/-- The in-memory state after `Delete`, independent of whether the save
succeeds: the removal happens before `save` is attempted. -/
theorem Delete_state (s : TaskStore) (id : Int) (saveOk : Bool) :
    (Delete s id saveOk).2 =
      match deleteTasks s.tasks id with
      | none => s
      | some ts' => { tasks := ts', nextID := s.nextID } := by
  rw [Delete]
  cases deleteTasks s.tasks id with
  | none => rfl
  | some ts' => cases saveOk <;> rfl

theorem toggleTasks_eq_none {ts : List Task} {id : Int}
    (h : ∀ t ∈ ts, t.id ≠ id) : toggleTasks ts id = none := by
  induction ts with
  | nil => rfl
  | cons t ts ih =>
    have ht : t.id ≠ id := h t (List.mem_cons_self t ts)
    rw [toggleTasks, if_neg ht, ih fun u hu => h u (List.mem_cons_of_mem t hu)]

theorem toggleTasks_first {l₁ : List Task} {t : Task} {l₂ : List Task}
    (h : ∀ u ∈ l₁, u.id ≠ t.id) :
    toggleTasks (l₁ ++ t :: l₂) t.id =
      some ({ t with done := !t.done }, l₁ ++ { t with done := !t.done } :: l₂) := by
  induction l₁ with
  | nil => simp [toggleTasks]
  | cons u l₁ ih =>
    have hu : u.id ≠ t.id := h u (List.mem_cons_self u l₁)
    rw [List.cons_append, toggleTasks, if_neg hu,
      ih fun v hv => h v (List.mem_cons_of_mem u hv)]
    rfl

theorem toggleTasks_map_id {ts : List Task} {id : Int} {u : Task}
    {ts' : List Task} (h : toggleTasks ts id = some (u, ts')) :
    ts'.map Task.id = ts.map Task.id := by
  induction ts generalizing ts' with
  | nil => simp [toggleTasks] at h
  | cons t ts ih =>
    rw [toggleTasks] at h
    by_cases ht : t.id = id
    · rw [if_pos ht] at h
      simp only [Option.some.injEq, Prod.mk.injEq] at h
      obtain ⟨-, rfl⟩ := h
      simp
    · rw [if_neg ht] at h
      cases hrec : toggleTasks ts id with
      | none => rw [hrec] at h; exact absurd h (by simp)
      | some p =>
        rw [hrec] at h
        cases p with
        | mk v rest =>
          simp only [Option.some.injEq, Prod.mk.injEq] at h
          rcases h with ⟨rfl, rfl⟩
          simp [ih hrec]

theorem deleteTasks_eq_none {ts : List Task} {id : Int}
    (h : ∀ t ∈ ts, t.id ≠ id) : deleteTasks ts id = none := by
  induction ts with
  | nil => rfl
  | cons t ts ih =>
    have ht : t.id ≠ id := h t (List.mem_cons_self t ts)
    rw [deleteTasks, if_neg ht, ih fun u hu => h u (List.mem_cons_of_mem t hu)]
    rfl

theorem deleteTasks_first {l₁ : List Task} {t : Task} {l₂ : List Task}
    (h : ∀ u ∈ l₁, u.id ≠ t.id) :
    deleteTasks (l₁ ++ t :: l₂) t.id = some (l₁ ++ l₂) := by
  induction l₁ with
  | nil => simp [deleteTasks]
  | cons u l₁ ih =>
    have hu : u.id ≠ t.id := h u (List.mem_cons_self u l₁)
    rw [List.cons_append, deleteTasks, if_neg hu,
      ih fun v hv => h v (List.mem_cons_of_mem u hv)]
    rfl

theorem deleteTasks_sublist {ts : List Task} {id : Int} {ts' : List Task}
    (h : deleteTasks ts id = some ts') : ts'.Sublist ts := by
  induction ts generalizing ts' with
  | nil => simp [deleteTasks] at h
  | cons t ts ih =>
    rw [deleteTasks] at h
    by_cases ht : t.id = id
    · rw [if_pos ht] at h
      simp only [Option.some.injEq] at h
      subst h
      exact List.sublist_cons_self t _
    · rw [if_neg ht] at h
      cases hrec : deleteTasks ts id with
      | none => rw [hrec] at h; simp at h
      | some rest =>
        rw [hrec] at h
        simp only [Option.map_some', Option.some.injEq] at h
        subst h
        exact List.Sublist.cons₂ t (ih hrec)

/-! ### The running maximum computed by `load` (src/main.go:70-79) -/

/-- The fold computing `maxID` in `load`. -/
def maxIdFold (l : List Task) (acc : Int) : Int :=
  l.foldl (fun m t => max m t.id) acc

theorem maxIdFold_cons (t : Task) (l : List Task) (acc : Int) :
    maxIdFold (t :: l) acc = maxIdFold l (max acc t.id) := rfl

theorem le_maxIdFold_acc (l : List Task) (acc : Int) : acc ≤ maxIdFold l acc := by
  induction l generalizing acc with
  | nil => exact le_refl _
  | cons t l ih =>
    rw [maxIdFold_cons]
    exact le_trans (le_max_left acc t.id) (ih _)

theorem le_maxIdFold_mem {l : List Task} {t : Task} (ht : t ∈ l) (acc : Int) :
    t.id ≤ maxIdFold l acc := by
  induction l generalizing acc with
  | nil => cases ht
  | cons u l ih =>
    rw [maxIdFold_cons]
    rcases List.mem_cons.mp ht with rfl | hmem
    · exact le_trans (le_max_right acc t.id) (le_maxIdFold_acc _ _)
    · exact ih hmem _

theorem maxIdFold_le {l : List Task} {b : Int} (acc : Int) (hacc : acc ≤ b)
    (hl : ∀ t ∈ l, t.id ≤ b) : maxIdFold l acc ≤ b := by
  induction l generalizing acc with
  | nil => exact hacc
  | cons t l ih =>
    rw [maxIdFold_cons]
    exact ih _ (max_le hacc (hl t (List.mem_cons_self t l)))
      fun u hu => hl u (List.mem_cons_of_mem t hu)

theorem load_contents_eq (l : List Task) :
    load (.contents l) =
      .ok { tasks := l,
            nextID := if maxIdFold l 0 + 1 < 1 then 1 else maxIdFold l 0 + 1 } := rfl

/-- When `t` realises the maximum id of `l`, `load` recomputes `nextID` as
`max 1 (t.id + 1)`: one greater than the maximum loaded id, at least 1. -/
theorem load_contents_max {l : List Task} {t : Task} (ht : t ∈ l)
    (hmax : ∀ u ∈ l, u.id ≤ t.id) :
    load (.contents l) = .ok { tasks := l, nextID := max 1 (t.id + 1) } := by
  have hfold : maxIdFold l 0 = max 0 t.id := by
    refine le_antisymm (maxIdFold_le 0 (le_max_left 0 t.id)
      fun u hu => le_trans (hmax u hu) (le_max_right 0 t.id)) ?_
    exact max_le (le_maxIdFold_acc l 0) (le_maxIdFold_mem ht 0)
  rw [load_contents_eq, hfold]
  have h1 : max 0 t.id + 1 = max 1 (t.id + 1) := by
    rcases le_total 0 t.id with h | h
    · rw [max_eq_right h, max_eq_right (by omega)]
    · rw [max_eq_left h, max_eq_left (by omega)]
      omega
  have h2 : ¬ max 0 t.id + 1 < 1 := by
    have := le_max_left 0 t.id
    omega
  rw [if_neg h2, h1]

/-! ### The store invariant: distinct ids, all below `nextID` -/

/-- Well-formedness of a store state: task ids are pairwise distinct and all
strictly below the `nextID` counter. -/
def StoreInv (s : TaskStore) : Prop :=
  (s.tasks.map Task.id).Nodup ∧ ∀ i ∈ s.tasks.map Task.id, i < s.nextID

/-- A parseable data file whose records carry pairwise distinct ids. -/
def FileIdsDistinct : FileData → Prop
  | .contents l => (l.map Task.id).Nodup
  | _ => True

theorem load_inv {fd : FileData} {s : TaskStore} (h : load fd = .ok s)
    (hd : FileIdsDistinct fd) : StoreInv s := by
  cases fd with
  | absent =>
    simp only [load, Except.ok.injEq] at h
    subst h
    exact ⟨List.nodup_nil, by simp [initStore]⟩
  | malformed => simp [load] at h
  | contents l =>
    rw [load_contents_eq] at h
    simp only [Except.ok.injEq] at h
    subst h
    refine ⟨hd, ?_⟩
    intro i hi
    simp only [List.mem_map] at hi
    obtain ⟨t, ht, rfl⟩ := hi
    have hle : t.id ≤ maxIdFold l 0 := le_maxIdFold_mem ht 0
    by_cases hcl : maxIdFold l 0 + 1 < 1
    · simp only [hcl, if_true]
      omega
    · simp only [hcl, if_false]
      omega

theorem applyOp_inv {s : TaskStore} (op : Op) (h : StoreInv s) :
    StoreInv (applyOp s op) := by
  obtain ⟨hnd, hlt⟩ := h
  cases op with
  | create title now saveOk =>
    by_cases ht : trimSpace title = []
    · simpa [applyOp, Create_of_trim_empty ht] using ⟨hnd, hlt⟩
    · rw [applyOp, Create_state ht]
      constructor
      · simp only [List.map_append, List.map_cons, List.map_nil, newTask]
        rw [List.nodup_append]
        refine ⟨hnd, List.nodup_singleton _, ?_⟩
        intro i hi
        simp only [List.mem_singleton]
        intro hcontra
        subst hcontra
        exact absurd (hlt _ hi) (lt_irrefl _)
      · intro i hi
        simp only [List.map_append, List.map_cons, List.map_nil, newTask,
          List.mem_append, List.mem_singleton] at hi
        show i < s.nextID + 1
        rcases hi with hi | rfl
        · exact lt_trans (hlt i hi) (by omega)
        · omega
  | toggle id saveOk =>
    rw [applyOp, Toggle_state]
    cases htog : toggleTasks s.tasks id with
    | none => exact ⟨hnd, hlt⟩
    | some p =>
      cases p with
      | mk u ts' =>
        have hmap : ts'.map Task.id = s.tasks.map Task.id := toggleTasks_map_id htog
        exact ⟨by simpa [hmap] using hnd, by simpa [hmap] using hlt⟩
  | delete id saveOk =>
    rw [applyOp, Delete_state]
    cases hdel : deleteTasks s.tasks id with
    | none => exact ⟨hnd, hlt⟩
    | some ts' =>
      have hsub : (ts'.map Task.id).Sublist (s.tasks.map Task.id) :=
        (deleteTasks_sublist hdel).map Task.id
      exact ⟨hnd.sublist hsub, fun i hi => hlt i (hsub.mem hi)⟩

/-! ### Monotonicity of the id counter along traces -/

theorem nextID_le_applyOp (s : TaskStore) (op : Op) :
    s.nextID ≤ (applyOp s op).nextID := by
  cases op with
  | create title now saveOk =>
    by_cases ht : trimSpace title = []
    · simp [applyOp, Create_of_trim_empty ht]
    · rw [applyOp, Create_state ht]
      show s.nextID ≤ s.nextID + 1
      omega
  | toggle id saveOk =>
    rw [applyOp, Toggle_state]
    cases toggleTasks s.tasks id with
    | none => exact le_refl _
    | some p => cases p with | mk u ts' => exact le_refl _
  | delete id saveOk =>
    rw [applyOp, Delete_state]
    cases deleteTasks s.tasks id with
    | none => exact le_refl _
    | some ts' => exact le_refl _

theorem nextID_le_runOps (s : TaskStore) (ops : List Op) :
    s.nextID ≤ (runOps s ops).nextID := by
  induction ops generalizing s with
  | nil => exact le_refl _
  | cons op ops ih =>
    exact le_trans (nextID_le_applyOp s op) (ih (applyOp s op))

/-- Each operation either emits no id, or emits exactly the current `nextID`
and bumps the counter past it. -/
theorem emittedIds_cases (s : TaskStore) (op : Op) :
    emittedIds s op = [] ∨
      (emittedIds s op = [s.nextID] ∧ (applyOp s op).nextID = s.nextID + 1) := by
  cases op with
  | create title now saveOk =>
    by_cases ht : trimSpace title = []
    · left
      simp [emittedIds, Create_of_trim_empty ht]
    · cases saveOk with
      | false => left; simp [emittedIds, Create_of_trim_ne ht]
      | true =>
        right
        constructor
        · simp [emittedIds, Create_of_trim_ne ht, newTask]
        · rw [applyOp, Create_state ht]
  | toggle id saveOk => left; rfl
  | delete id saveOk => left; rfl

theorem assignedIds_lower_bound {ops : List Op} {s : TaskStore} {i : Int}
    (h : i ∈ assignedIds s ops) : s.nextID ≤ i := by
  induction ops generalizing s with
  | nil => simp [assignedIds] at h
  | cons op ops ih =>
    rw [assignedIds] at h
    rcases List.mem_append.mp h with hem | hrest
    · rcases emittedIds_cases s op with hcase | ⟨hcase, -⟩
      · rw [hcase] at hem
        cases hem
      · rw [hcase, List.mem_singleton] at hem
        exact le_of_eq hem.symm
    · exact le_trans (nextID_le_applyOp s op) (ih hrest)

/-! ### Reachability of store states -/

/-- Store states reachable in a process lifetime: the state produced by
`NewTaskStore` (a successful `load` of whatever the data file held),
followed by any number of `Create`/`Toggle`/`Delete` operations. -/
inductive Reachable : TaskStore → Prop where
  | loaded (fd : FileData) (s : TaskStore) : load fd = .ok s → Reachable s
  | step (s : TaskStore) (op : Op) : Reachable s → Reachable (applyOp s op)

/-- Reachability when every parseable startup file is additionally required
to carry pairwise distinct ids. -/
inductive ReachableDistinct : TaskStore → Prop where
  | loaded (fd : FileData) (s : TaskStore) : load fd = .ok s →
      FileIdsDistinct fd → ReachableDistinct s
  | step (s : TaskStore) (op : Op) : ReachableDistinct s →
      ReachableDistinct (applyOp s op)

theorem reachableDistinct_inv {s : TaskStore} (h : ReachableDistinct s) :
    StoreInv s := by
  induction h with
  | loaded fd s hload hd => exact load_inv hload hd
  | step s op _ ih => exact applyOp_inv op ih

/-! ### Claim theorems -/

/-- Claim C1: for every sequence of Create/Toggle/Delete operations on a
TaskStore, the ids assigned by successful Create calls are strictly
increasing and no id is ever assigned twice, even after the task bearing an
earlier id has been deleted. -/
theorem claim_assigned_ids_strictly_increasing (s : TaskStore) (ops : List Op) :
    (assignedIds s ops).Pairwise (· < ·) := by
  induction ops generalizing s with
  | nil => exact List.Pairwise.nil
  | cons op ops ih =>
    rw [assignedIds]
    rcases emittedIds_cases s op with hcase | ⟨hcase, hnext⟩
    · simpa [hcase] using ih (applyOp s op)
    · rw [hcase]
      refine List.pairwise_append.mpr ⟨List.pairwise_singleton _ _, ih _, ?_⟩
      intro a ha b hb
      rw [List.mem_singleton] at ha
      subst ha
      have hlb := assignedIds_lower_bound hb
      rw [hnext] at hlb
      omega

/-- Claim C5, counterexample: a parseable data file may repeat an id, and
`load` takes its records verbatim, so the resulting store state is reachable
yet carries duplicate task ids. -/
theorem claim_distinct_ids_counterexample :
    load (.contents [{ id := 1, title := ['a'], done := false, createdAt := 0 },
                     { id := 1, title := ['b'], done := false, createdAt := 0 }]) =
      .ok { tasks := [{ id := 1, title := ['a'], done := false, createdAt := 0 },
                      { id := 1, title := ['b'], done := false, createdAt := 0 }],
            nextID := 2 } ∧
    Reachable { tasks := [{ id := 1, title := ['a'], done := false, createdAt := 0 },
                          { id := 1, title := ['b'], done := false, createdAt := 0 }],
                nextID := 2 } ∧
    ¬ (TaskStore.tasks { tasks := [{ id := 1, title := ['a'], done := false, createdAt := 0 },
                                   { id := 1, title := ['b'], done := false, createdAt := 0 }],
                         nextID := 2 } |>.map Task.id).Nodup := by
  refine ⟨rfl, Reachable.loaded (.contents _) _ rfl, by decide⟩

/-- Claim C5 (amended): in every reachable store state, all task ids are
distinct, provided every parseable data file loaded at startup itself
carries distinct ids; `load` performs no deduplication of its own. -/
theorem claim_distinct_ids (s : TaskStore) (h : ReachableDistinct s) :
    (s.tasks.map Task.id).Nodup :=
  (reachableDistinct_inv h).1

/-- Witness for the amended claim C5 at the freshly loaded empty store. -/
theorem claim_distinct_ids_witness :
    ((initStore.tasks.map Task.id)).Nodup :=
  claim_distinct_ids initStore
    (ReachableDistinct.loaded .absent initStore rfl True.intro)

/-- Claim C10: a title that trims to empty leaves the store completely
unchanged — the same state comes back, so no id is consumed and no task is
appended — and the outcome does not depend on the persistence layer, which
is never invoked. -/
theorem claim_create_validation_atomic (s : TaskStore) (title : List Char)
    (now : Nat) (h : trimSpace title = []) :
    ∀ saveOk, Create s title now saveOk = (.error .validation, s) ∧
      (Create s title now saveOk).2.tasks = s.tasks ∧
      (Create s title now saveOk).2.nextID = s.nextID :=
  fun saveOk => by rw [Create_of_trim_empty h]; exact ⟨rfl, rfl, rfl⟩

/-- Witness for claim C10 on a one-task store and an all-blank title. -/
theorem claim_create_validation_atomic_witness :
    trimSpace [' ', ' '] = [] ∧
    Create { tasks := [{ id := 1, title := ['a'], done := false, createdAt := 0 }], nextID := 2 }
        [' ', ' '] 5 false =
      (.error .validation,
       { tasks := [{ id := 1, title := ['a'], done := false, createdAt := 0 }], nextID := 2 }) :=
  ⟨by decide,
   (claim_create_validation_atomic
     { tasks := [{ id := 1, title := ['a'], done := false, createdAt := 0 }], nextID := 2 }
     [' ', ' '] 5 (by decide) false).1⟩

/-- Claim C4: when the persistence step of `Create` fails, the call reports a
persistence error but the in-memory mutation stays: the new task remains
appended, `nextID` remains incremented, and a subsequent `List` still shows
the task whose `Create` reported failure. -/
theorem claim_create_persistence_no_rollback (s : TaskStore)
    (title : List Char) (now : Nat) (h : trimSpace title ≠ []) :
    (Create s title now false).1 = .error .persistence ∧
    (Create s title now false).2.tasks = s.tasks ++ [newTask s title now] ∧
    (Create s title now false).2.nextID = s.nextID + 1 ∧
    ListTasks (Create s title now false).2 = s.tasks ++ [newTask s title now] := by
  rw [Create_of_trim_ne h]
  exact ⟨rfl, rfl, rfl, rfl⟩

/-- Witness for claim C4: a failed save after `Create "b"` on a one-task
store still leaves the new task visible in memory. -/
theorem claim_create_persistence_no_rollback_witness :
    trimSpace ['b'] ≠ [] ∧
    ListTasks (Create { tasks := [{ id := 1, title := ['a'], done := false, createdAt := 0 }],
                        nextID := 2 } ['b'] 7 false).2 =
      [{ id := 1, title := ['a'], done := false, createdAt := 0 },
       { id := 2, title := ['b'], done := false, createdAt := 7 }] :=
  ⟨by decide,
   (claim_create_persistence_no_rollback
     { tasks := [{ id := 1, title := ['a'], done := false, createdAt := 0 }], nextID := 2 }
     ['b'] 7 (by decide)).2.2.2⟩

/-- Inversion for a successful `Create`: the save must have succeeded, the
trimmed title is non-empty, and task and state are fully determined. -/
theorem Create_ok_eq {s : TaskStore} {title : List Char} {now : Nat}
    {saveOk : Bool} {t : Task} {s' : TaskStore}
    (h : Create s title now saveOk = (.ok t, s')) :
    t = newTask s title now ∧
    s' = { tasks := s.tasks ++ [newTask s title now], nextID := s.nextID + 1 } ∧
    saveOk = true ∧ trimSpace title ≠ [] := by
  by_cases ht : trimSpace title = []
  · rw [Create_of_trim_empty ht] at h
    simp only [Prod.mk.injEq] at h
    exact absurd h.1 (by simp)
  · rw [Create_of_trim_ne ht] at h
    cases saveOk with
    | false =>
      simp only [Bool.false_eq_true, if_false, Prod.mk.injEq] at h
      exact absurd h.1 (by simp)
    | true =>
      simp only [if_true, Prod.mk.injEq, Except.ok.injEq] at h
      exact ⟨h.1.symm, h.2.symm, rfl, ht⟩

/-- Claim C3: `Create` trims the title and rejects with a validation error
exactly when the trimmed title is empty; a successfully created task carries
the trimmed title, `done = false`, and the current `nextID` as its id, which
is 1 for the first `Create` on a fresh empty store. -/
theorem claim_create_trims_and_validates (s : TaskStore) (title : List Char)
    (now : Nat) (saveOk : Bool) :
    ((Create s title now saveOk).1 = .error .validation ↔ trimSpace title = []) ∧
    (∀ t s', Create s title now saveOk = (.ok t, s') →
      t.title = trimSpace title ∧ t.done = false ∧ t.id = s.nextID) ∧
    (∀ t s', Create initStore title now saveOk = (.ok t, s') → t.id = 1) := by
  refine ⟨?_, ?_, ?_⟩
  · constructor
    · intro h
      by_contra ht
      rw [Create_of_trim_ne ht] at h
      cases saveOk <;> simp at h
    · intro ht
      rw [Create_of_trim_empty ht]
  · intro t s' h
    obtain ⟨rfl, -, -, -⟩ := Create_ok_eq h
    exact ⟨rfl, rfl, rfl⟩
  · intro t s' h
    obtain ⟨rfl, -, -, -⟩ := Create_ok_eq h
    rfl

/-- Witness for claim C3: `Create "Buy milk"` on the fresh store yields id 1,
`done = false` and the trimmed title, while `Create "  "` is rejected. -/
theorem claim_create_trims_and_validates_witness :
    (Task.title { id := 1, title := ['B', 'u', 'y', ' ', 'm', 'i', 'l', 'k'], done := false,
                  createdAt := 0 } = trimSpace [' ', 'B', 'u', 'y', ' ', 'm', 'i', 'l', 'k', ' '] ∧
     Task.done { id := 1, title := ['B', 'u', 'y', ' ', 'm', 'i', 'l', 'k'], done := false,
                 createdAt := 0 } = false ∧
     Task.id { id := 1, title := ['B', 'u', 'y', ' ', 'm', 'i', 'l', 'k'], done := false,
               createdAt := 0 } = initStore.nextID) ∧
    (Create initStore [' ', ' '] 0 true).1 = .error .validation :=
  ⟨(claim_create_trims_and_validates initStore
      [' ', 'B', 'u', 'y', ' ', 'm', 'i', 'l', 'k', ' '] 0 true).2.1
      { id := 1, title := ['B', 'u', 'y', ' ', 'm', 'i', 'l', 'k'], done := false, createdAt := 0 }
      { tasks := [{ id := 1, title := ['B', 'u', 'y', ' ', 'm', 'i', 'l', 'k'], done := false,
                    createdAt := 0 }], nextID := 2 }
      (by rfl),
   (claim_create_trims_and_validates initStore [' ', ' '] 0 true).1.mpr (by decide)⟩

/-- Claim C6: `load` of an absent file yields the empty store with
`nextID = 1`; `load` of a malformed file is a persistence error; `load` of a
parseable file keeps its records and recomputes `nextID` as one greater than
the maximum loaded id, floored at 1. -/
theorem claim_load_spec :
    load .absent = .ok { tasks := [], nextID := 1 } ∧
    load .malformed = .error .persistence ∧
    ∀ (l : List Task) (t : Task), t ∈ l → (∀ u ∈ l, u.id ≤ t.id) →
      load (.contents l) = .ok { tasks := l, nextID := max 1 (t.id + 1) } :=
  ⟨rfl, rfl, fun _ _ ht hmax => load_contents_max ht hmax⟩

/-- Witness for claim C6: loading a file with ids `[3, 7, 2]` yields
`nextID = 8`. -/
theorem claim_load_spec_witness :
    load (.contents [{ id := 3, title := ['a'], done := false, createdAt := 0 },
                     { id := 7, title := ['b'], done := true, createdAt := 0 },
                     { id := 2, title := ['c'], done := false, createdAt := 0 }]) =
      .ok { tasks := [{ id := 3, title := ['a'], done := false, createdAt := 0 },
                      { id := 7, title := ['b'], done := true, createdAt := 0 },
                      { id := 2, title := ['c'], done := false, createdAt := 0 }],
            nextID := 8 } := by
  have h := claim_load_spec.2.2
    [{ id := 3, title := ['a'], done := false, createdAt := 0 },
     { id := 7, title := ['b'], done := true, createdAt := 0 },
     { id := 2, title := ['c'], done := false, createdAt := 0 }]
    { id := 7, title := ['b'], done := true, createdAt := 0 }
    (by decide) (by decide)
  rw [h]
  norm_num

/-- Claim C2: saving a store and loading a fresh store from the same file
returns the identical task sequence (same tasks, same order, all fields
including `createdAt`), and a `nextID` of one greater than the maximum
loaded id (1 on the empty store).  Ids are assumed positive, as the data
model prescribes. -/
theorem claim_save_load_roundtrip (s : TaskStore)
    (hpos : ∀ t ∈ s.tasks, 1 ≤ t.id) :
    (s.tasks = [] → load (saveData s) = .ok { tasks := s.tasks, nextID := 1 }) ∧
    (∀ t ∈ s.tasks, (∀ u ∈ s.tasks, u.id ≤ t.id) →
      load (saveData s) = .ok { tasks := s.tasks, nextID := t.id + 1 }) := by
  constructor
  · intro h
    rw [saveData, load_contents_eq]
    simp [h, maxIdFold]
  · intro t ht hmax
    rw [saveData, load_contents_max ht hmax,
      max_eq_right (show (1 : Int) ≤ t.id + 1 by have := hpos t ht; omega)]

/-- Witness for claim C2 on a two-task store with ids 1 and 2. -/
theorem claim_save_load_roundtrip_witness :
    load (saveData { tasks := [{ id := 1, title := ['a'], done := false, createdAt := 3 },
                               { id := 2, title := ['b'], done := true, createdAt := 4 }],
                     nextID := 3 }) =
      .ok { tasks := [{ id := 1, title := ['a'], done := false, createdAt := 3 },
                      { id := 2, title := ['b'], done := true, createdAt := 4 }],
            nextID := 3 } :=
  (claim_save_load_roundtrip
    { tasks := [{ id := 1, title := ['a'], done := false, createdAt := 3 },
                { id := 2, title := ['b'], done := true, createdAt := 4 }], nextID := 3 }
    (by decide)).2
    { id := 2, title := ['b'], done := true, createdAt := 4 }
    (by decide) (by decide)

/-- Claim C7: `List` returns exactly the store's task sequence in insertion
order, never fails and changes nothing; the Go code returns a fresh copy
(src/main.go:116-118), so caller-side mutation of the returned slice cannot
reach the store, which the value semantics of this model renders automatic. -/
theorem claim_list_snapshot (s : TaskStore) :
    ListTasks s = s.tasks ∧ ∀ f : List Task → List Task,
      (f (ListTasks s), s).2 = s :=
  ⟨rfl, fun _ => rfl⟩

/-! ### Helpers for the Toggle/Delete claims -/

/-- The effect of `s.tasks[i].Done = !s.tasks[i].Done` on the matched task
(src/main.go:152). -/
def flipTask (t : Task) : Task :=
  { t with done := !t.done }

theorem flipTask_id (t : Task) : (flipTask t).id = t.id := rfl

theorem flipTask_flipTask (t : Task) : flipTask (flipTask t) = t := by
  cases t with
  | mk i ti d c => simp [flipTask]

theorem toggleTasks_first_flip {l₁ : List Task} {t : Task} {l₂ : List Task}
    (h : ∀ u ∈ l₁, u.id ≠ t.id) :
    toggleTasks (l₁ ++ t :: l₂) t.id = some (flipTask t, l₁ ++ flipTask t :: l₂) :=
  toggleTasks_first h

theorem Toggle_of_none {s : TaskStore} {id : Int}
    (h : toggleTasks s.tasks id = none) (saveOk : Bool) :
    Toggle s id saveOk = (.error .notFound, s) := by
  rw [Toggle, h]

theorem Toggle_of_some {s : TaskStore} {id : Int} {t' : Task} {ts' : List Task}
    (h : toggleTasks s.tasks id = some (t', ts')) :
    Toggle s id true = (.ok t', { tasks := ts', nextID := s.nextID }) := by
  rw [Toggle, h]
  rfl

theorem Delete_of_none {s : TaskStore} {id : Int}
    (h : deleteTasks s.tasks id = none) (saveOk : Bool) :
    Delete s id saveOk = (.error .notFound, s) := by
  rw [Delete, h]

theorem Delete_of_some {s : TaskStore} {id : Int} {ts' : List Task}
    (h : deleteTasks s.tasks id = some ts') :
    Delete s id true = (.ok (), { tasks := ts', nextID := s.nextID }) := by
  rw [Delete, h]
  rfl

/-- Splitting a duplicate-free task list at one element: no other element
shares its id. -/
theorem nodup_decomp {l₁ : List Task} {t : Task} {l₂ : List Task}
    (h : ((l₁ ++ t :: l₂).map Task.id).Nodup) :
    (∀ u ∈ l₁, u.id ≠ t.id) ∧ (∀ u ∈ l₂, u.id ≠ t.id) := by
  rw [List.map_append, List.map_cons, List.nodup_append] at h
  obtain ⟨h1, h2, hdisj⟩ := h
  constructor
  · intro u hu heq
    exact hdisj (List.mem_map_of_mem Task.id hu)
      (by rw [heq]; exact List.mem_cons_self _ _)
  · intro u hu heq
    exact (List.nodup_cons.mp h2).1 (heq ▸ List.mem_map_of_mem Task.id hu)

/-- Claim C8: with distinct ids, `Delete` removes exactly the task with the
matching id, preserving the relative order of the remaining tasks, and
reports not-found when the id is absent; after a successful `Delete(id)`, a
subsequent `Toggle(id)` reports not-found. -/
theorem claim_delete_spec (s : TaskStore) (id : Int)
    (hnd : (s.tasks.map Task.id).Nodup) :
    ((∀ t ∈ s.tasks, t.id ≠ id) →
      ∀ saveOk, Delete s id saveOk = (.error .notFound, s)) ∧
    (∀ t ∈ s.tasks, t.id = id →
      Delete s id true =
        (.ok (), { tasks := s.tasks.filter (fun u => u.id != id), nextID := s.nextID }) ∧
      ∀ saveOk, (Toggle (Delete s id true).2 id saveOk).1 = .error .notFound) := by
  constructor
  · intro habs saveOk
    exact Delete_of_none (deleteTasks_eq_none habs) saveOk
  · intro t ht heq
    subst heq
    obtain ⟨l₁, l₂, hsplit⟩ := List.append_of_mem ht
    obtain ⟨hl₁, hl₂⟩ := nodup_decomp (hsplit ▸ hnd)
    have hdel : deleteTasks s.tasks t.id = some (l₁ ++ l₂) := by
      rw [hsplit]
      exact deleteTasks_first hl₁
    have hnomem : ∀ u ∈ l₁ ++ l₂, u.id ≠ t.id := by
      intro u hu
      rcases List.mem_append.mp hu with h | h
      exacts [hl₁ u h, hl₂ u h]
    have hfilter : s.tasks.filter (fun u => u.id != t.id) = l₁ ++ l₂ := by
      rw [hsplit, List.filter_append, List.filter_cons]
      simp only [bne_self_eq_false', Bool.false_eq_true, if_false]
      rw [List.filter_eq_self.mpr fun u hu => by simpa using hl₁ u hu,
        List.filter_eq_self.mpr fun u hu => by simpa using hl₂ u hu]
    have hstate : Delete s t.id true = (.ok (), { tasks := l₁ ++ l₂, nextID := s.nextID }) :=
      Delete_of_some hdel
    constructor
    · rw [hfilter]
      exact hstate
    · intro saveOk
      rw [hstate]
      rw [Toggle_of_none (s := { tasks := l₁ ++ l₂, nextID := s.nextID })
        (toggleTasks_eq_none hnomem) saveOk]

/-- Witness for claim C8 on a two-task store: deleting id 1 keeps task 2 and
a subsequent toggle of id 1 is not-found. -/
theorem claim_delete_spec_witness :
    Delete { tasks := [{ id := 1, title := ['a'], done := false, createdAt := 0 },
                       { id := 2, title := ['b'], done := false, createdAt := 0 }],
             nextID := 3 } 1 true =
      (.ok (), { tasks := [{ id := 2, title := ['b'], done := false, createdAt := 0 }],
                 nextID := 3 }) ∧
    (Toggle (Delete { tasks := [{ id := 1, title := ['a'], done := false, createdAt := 0 },
                                { id := 2, title := ['b'], done := false, createdAt := 0 }],
                      nextID := 3 } 1 true).2 1 true).1 = .error .notFound := by
  have h := (claim_delete_spec
    { tasks := [{ id := 1, title := ['a'], done := false, createdAt := 0 },
                { id := 2, title := ['b'], done := false, createdAt := 0 }], nextID := 3 }
    1 (by decide)).2
    { id := 1, title := ['a'], done := false, createdAt := 0 }
    (by decide) rfl
  exact ⟨by rw [h.1]; rfl, h.2 true⟩

/-- Claim C9: toggling an id present in a duplicate-free store flips exactly
the `done` flag of the matching task — its id, title and `createdAt`, all
other tasks, and `nextID` are unchanged — and toggling the same id twice
restores the original store state. -/
theorem claim_toggle_frame (s : TaskStore) (l₁ : List Task) (t : Task)
    (l₂ : List Task) (hsplit : s.tasks = l₁ ++ t :: l₂)
    (hunique : ∀ u ∈ l₁ ++ l₂, u.id ≠ t.id) :
    Toggle s t.id true =
      (.ok { id := t.id, title := t.title, done := !t.done, createdAt := t.createdAt },
       { tasks := l₁ ++ { id := t.id, title := t.title, done := !t.done,
                          createdAt := t.createdAt } :: l₂,
         nextID := s.nextID }) ∧
    (Toggle (Toggle s t.id true).2 t.id true).2 = s := by
  have hl₁ : ∀ u ∈ l₁, u.id ≠ t.id := fun u hu =>
    hunique u (List.mem_append_left _ hu)
  have h1 : toggleTasks s.tasks t.id = some (flipTask t, l₁ ++ flipTask t :: l₂) := by
    rw [hsplit]
    exact toggleTasks_first_flip hl₁
  have hfst : Toggle s t.id true =
      (.ok (flipTask t), { tasks := l₁ ++ flipTask t :: l₂, nextID := s.nextID }) :=
    Toggle_of_some h1
  refine ⟨hfst, ?_⟩
  rw [hfst]
  have h2 : toggleTasks (l₁ ++ flipTask t :: l₂) t.id =
      some (flipTask (flipTask t), l₁ ++ flipTask (flipTask t) :: l₂) := by
    have h3 := @toggleTasks_first_flip l₁ (flipTask t) l₂
      fun u hu => by rw [flipTask_id]; exact hl₁ u hu
    rw [flipTask_id] at h3
    exact h3
  rw [Toggle_of_some (s := { tasks := l₁ ++ flipTask t :: l₂, nextID := s.nextID }) h2]
  rw [flipTask_flipTask, ← hsplit]

/-- Witness for claim C9 on a two-task store: toggling id 2 flips only that
task's flag and a second toggle restores the store. -/
theorem claim_toggle_frame_witness :
    Toggle { tasks := [{ id := 1, title := ['a'], done := false, createdAt := 0 },
                       { id := 2, title := ['b'], done := false, createdAt := 5 }],
             nextID := 3 } 2 true =
      (.ok { id := 2, title := ['b'], done := true, createdAt := 5 },
       { tasks := [{ id := 1, title := ['a'], done := false, createdAt := 0 },
                   { id := 2, title := ['b'], done := true, createdAt := 5 }],
         nextID := 3 }) ∧
    (Toggle (Toggle { tasks := [{ id := 1, title := ['a'], done := false, createdAt := 0 },
                                { id := 2, title := ['b'], done := false, createdAt := 5 }],
                      nextID := 3 } 2 true).2 2 true).2 =
      { tasks := [{ id := 1, title := ['a'], done := false, createdAt := 0 },
                  { id := 2, title := ['b'], done := false, createdAt := 5 }],
        nextID := 3 } :=
  claim_toggle_frame
    { tasks := [{ id := 1, title := ['a'], done := false, createdAt := 0 },
                { id := 2, title := ['b'], done := false, createdAt := 5 }], nextID := 3 }
    [{ id := 1, title := ['a'], done := false, createdAt := 0 }]
    { id := 2, title := ['b'], done := false, createdAt := 5 }
    [] rfl (by decide)

end TodoApp
